import Mathlib

/-!
Shallow embedding of `src/app.py` (Cloud-Stock): the `CloudStockfishEngine`
class (engine supervisor) and the `/get_best_move` Flask route.

Modelling conventions:
* Wall-clock time is `ℤ`, measured in milliseconds (so `0.5 s = 500`,
  `1.5 s = 1500`, `20 s = 20000`; the source works in float seconds, which we
  embed at millisecond granularity).  `time.time()` readings are tracked in a
  `now` field; every blocking `queue.get(timeout=tau)` either yields an
  already-queued line instantly, yields a line arriving after `d`
  milliseconds, or raises `queue.Empty` after the full `tau` milliseconds.
  The environment (what the reader thread puts on the queue, and when) is
  given as data: a list of already queued lines plus a list of future
  `QEvent`s consumed left to right.
* Process liveness: `self.process.poll() is not None` (process has exited) is
  modelled by an optional absolute death time; the process is dead at time
  `t` iff `deathTime ≤ t`.
* The Python function returns the move string on success and `None` on every
  failure; each failure return site prints a distinct message, so the result
  type tags the return site (lines 204-205, 209-210, 213-214, 217-218 of
  src/app.py).
-/

namespace CloudStock

/-- Python `max(a, b)` on numbers. -/
def zmax (a b : ℤ) : ℤ := if a ≤ b then b else a

/-- Python `min(a, b)` on numbers. -/
def zmin (a b : ℤ) : ℤ := if a ≤ b then a else b

/-- A line of engine output.  `old` is a ghost provenance tag: `true` marks a
line emitted during a previous request's window or by a previous, now-dead
process instance.  The code never inspects this tag. -/
structure Line where
  old : Bool
  text : String
deriving DecidableEq

/-- Behaviour of the output queue during one blocking `get`: either a line
arrives after `d` milliseconds, or nothing arrives for the whole poll
timeout (`queue.Empty`). -/
inductive QEvent where
  | line (l : Line) (d : ℤ)
  | silence
deriving DecidableEq

/-- Observable actions of the engine wrapper, in program order. -/
inductive Act where
  | restart
  | spawned (ok : Bool)
  | drainedAct
  | sent (cmd : String)
  | got (l : Line)
  | polled (t : ℤ) (alive : Bool)
  | search (deadline : ℤ)
deriving DecidableEq

/-- Result of one `get_best_move` call, tagged by return site.
`envExhausted` is a model artifact produced when the environment event list
runs out while the wait loop would still be running. -/
inductive AResult where
  | success (move : String) (elapsed : ℤ)
  | noLegalMoves
  | diedDuringSearch
  | searchTimeout (elapsed : ℤ)
  | analysisError
  | envExhausted
deriving DecidableEq

/-- Engine-object state: the persistent `output_queue` contents, the future
queue behaviour, the current wall clock, and the current process's death
time (`none` = the process never dies). -/
structure St where
  queue : List Line
  evs : List QEvent
  now : ℤ
  deathTime : Option ℤ
deriving DecidableEq

/-- Environment for one `start_engine` call: whether `subprocess.Popen`
succeeds (a failure raises, line 114), and the death time of the newly
spawned process. -/
structure SpawnEnv where
  spawnOk : Bool
  newDeath : Option ℤ
deriving DecidableEq

/-- Helper for `pySplit`: scan the characters, accumulating the current
(reversed) token; whitespace ends a token, empty tokens are dropped. -/
def pySplitAux : List Char → List Char → List String
  | [], [] => []
  | [], acc => [String.mk acc.reverse]
  | c :: cs, acc =>
    if c.isWhitespace then
      match acc with
      | [] => pySplitAux cs []
      | _ => String.mk acc.reverse :: pySplitAux cs []
    else pySplitAux cs (c :: acc)

/-- Python `str.split()` with no arguments: split on runs of whitespace,
discarding empty tokens. -/
def pySplit (s : String) : List String := pySplitAux s.data []

/-- Python `s.startswith(pre)` (line 196). -/
def pyStarts (pre s : String) : Bool := pre.data.isPrefixOf s.data

/-- Python `pat in s` substring test (line 149: `expected_response in response`). -/
def pyIn (pat s : String) : Bool :=
  (List.range (s.data.length + 1)).any fun i => pat.data.isPrefixOf (s.data.drop i)

/-- Is the process dead (`poll() is not None`) at time `t`? -/
def deadAt (dt : Option ℤ) (t : ℤ) : Bool :=
  match dt with
  | none => false
  | some d => decide (d ≤ t)

/-- Liveness check at the state's current time. -/
def isAlive (st : St) : Bool := !deadAt st.deathTime st.now

/-- `send_command` (lines 133-140): writes only when the process is alive;
takes no time.  We record only the trace action. -/
def sendActs (st : St) (cmd : String) : List Act :=
  if isAlive st then [Act.sent cmd] else []

/-- Output of a `wait_for` call: matched line (or `none` on timeout), final
clock, remaining queue, remaining environment events, consumed-line trace. -/
structure WaitOut where
  res : Option Line
  now : ℤ
  queue : List Line
  evs : List QEvent
  tr : List Act
deriving DecidableEq

/-- Event phase of `wait_for` (lines 142-155): the queue is empty, so each
`get(timeout=0.5)` blocks on the environment.  On a line, test the substring
match; on `queue.Empty` (500 ms), just loop.  The loop condition
`time.time() - start_time < timeout` is checked before every `get`.  When the
event list is exhausted the queue stays empty forever, so the remaining loop
iterations all hit `queue.Empty` and the call returns `None` at the deadline. -/
def wfEvents (expected : String) (timeout start now : ℤ) (evs : List QEvent) : WaitOut :=
  if now - start < timeout then
    match evs with
    | [] => ⟨none, start + timeout, [], [], []⟩
    | QEvent.line l d :: rest =>
      if pyIn expected l.text then ⟨some l, now + d, [], rest, [Act.got l]⟩
      else
        let o := wfEvents expected timeout start (now + d) rest
        ⟨o.res, o.now, [], o.evs, Act.got l :: o.tr⟩
    | QEvent.silence :: rest => wfEvents expected timeout start (now + 500) rest
  else ⟨none, now, [], evs, []⟩

/-- Queue phase of `wait_for`: already-queued lines are returned by `get`
instantly (zero elapsed time), the loop condition still being checked before
each `get`.  Non-matching lines are discarded. -/
def wfQueue (expected : String) (timeout start now : ℤ) (queue : List Line)
    (evs : List QEvent) : WaitOut :=
  match queue with
  | [] => wfEvents expected timeout start now evs
  | l :: rest =>
    if now - start < timeout then
      if pyIn expected l.text then ⟨some l, now, rest, evs, [Act.got l]⟩
      else
        let o := wfQueue expected timeout start now rest evs
        ⟨o.res, o.now, o.queue, o.evs, Act.got l :: o.tr⟩
    else ⟨none, now, l :: rest, evs, []⟩

/-- `wait_for(expected_response, timeout)` (lines 142-155); `timeout` in ms. -/
def waitFor (expected : String) (timeout : ℤ) (st : St) : WaitOut × St :=
  let o := wfQueue expected timeout st.now st.now st.queue st.evs
  (o, { st with now := o.now, queue := o.queue, evs := o.evs })

/-- Handling of a line starting with `"bestmove"` (lines 196-205):
`parts = response.split()`; if `len(parts) >= 2 and parts[1] != "(none)"`
return the move and the elapsed time, else print "No legal moves" and
return `None`. -/
def bestmoveStep (text : String) (elapsed : ℤ) : AResult :=
  let parts := pySplit text
  if 2 ≤ parts.length ∧ parts.getD 1 "" ≠ "(none)" then
    AResult.success (parts.getD 1 "") elapsed
  else AResult.noLegalMoves

/-- Output of the result-wait loop of `get_best_move`. -/
structure SearchOut where
  res : AResult
  now : ℤ
  queue : List Line
  evs : List QEvent
  tr : List Act
deriving DecidableEq

/-- Event phase of the result-wait loop (lines 190-214): while
`time.time() - start_time < timeout`, `get(timeout=1.0)`; on a line starting
with `"bestmove"` parse it and return; on another line just loop; on
`queue.Empty` (1000 ms) poll the process and return `None` if it died; after
the loop, return `None` (search timeout), reporting the elapsed time. -/
def swEvents (timeout start now : ℤ) (dt : Option ℤ) (evs : List QEvent) : SearchOut :=
  if now - start < timeout then
    match evs with
    | [] => ⟨AResult.envExhausted, now, [], [], []⟩
    | QEvent.line l d :: rest =>
      if pyStarts "bestmove" l.text then
        ⟨bestmoveStep l.text (now + d - start), now + d, [], rest, [Act.got l]⟩
      else
        let o := swEvents timeout start (now + d) dt rest
        ⟨o.res, o.now, [], o.evs, Act.got l :: o.tr⟩
    | QEvent.silence :: rest =>
      if deadAt dt (now + 1000) then
        ⟨AResult.diedDuringSearch, now + 1000, [], rest, [Act.polled (now + 1000) false]⟩
      else
        let o := swEvents timeout start (now + 1000) dt rest
        ⟨o.res, o.now, [], o.evs, Act.polled (now + 1000) true :: o.tr⟩
  else ⟨AResult.searchTimeout (now - start), now, [], evs, []⟩

/-- Queue phase of the result-wait loop: queued lines are consumed instantly. -/
def swQueue (timeout start now : ℤ) (dt : Option ℤ) (queue : List Line)
    (evs : List QEvent) : SearchOut :=
  match queue with
  | [] => swEvents timeout start now dt evs
  | l :: rest =>
    if now - start < timeout then
      if pyStarts "bestmove" l.text then
        ⟨bestmoveStep l.text (now - start), now, rest, evs, [Act.got l]⟩
      else
        let o := swQueue timeout start now dt rest evs
        ⟨o.res, o.now, o.queue, o.evs, Act.got l :: o.tr⟩
    else ⟨AResult.searchTimeout (now - start), now, l :: rest, evs, []⟩

/-- The result-wait loop of `get_best_move` (lines 190-214); `timeout` in ms. -/
def searchWait (timeout : ℤ) (st : St) : SearchOut × St :=
  let o := swQueue timeout st.now st.now st.deathTime st.queue st.evs
  (o, { st with now := o.now, queue := o.queue, evs := o.evs })

/-- The one-time configuration commands of `start_engine` (lines 100-105). -/
def setupCmds : List String :=
  ["setoption name MultiPV value 1",
   "setoption name Ponder value false",
   "setoption name OwnBook value false",
   "setoption name UCI_AnalyseMode value false",
   "setoption name UCI_ShowCurrLine value false",
   "setoption name UCI_ShowRefutations value false"]

/-- Output of `start_engine`: `ok` is false when `Popen` raised (the
exception propagates, line 114); the two handshake acknowledgement lines are
whatever the two `wait_for` calls matched. -/
structure StartRes where
  ok : Bool
  uciAck : Option Line
  readyAck : Option Line
  st : St
  tr : List Act
deriving DecidableEq

/-- `start_engine` (lines 78-114).  On spawn success the process handle is
replaced (new death time) but `self.output_queue` is NOT touched: the queue
object is created once in `__init__` (line 15) and reused across restarts.
The handshake is `uci` / `wait_for("uciok", 10)`, the setoption block,
`isready` / `wait_for("readyok", 10)` (10 s = 10000 ms); a `wait_for`
timeout only prints and returns `None`, it does not raise. -/
def startEngine (env : SpawnEnv) (st : St) : StartRes :=
  if env.spawnOk then
    let st1 : St := { st with deathTime := env.newDeath }
    let tr1 := sendActs st1 "uci"
    let w1 := waitFor "uciok" 10000 st1
    let st2 := w1.2
    let tr3 := ((setupCmds ++ ["isready"]).map fun c => sendActs st2 c).flatten
    let w2 := waitFor "readyok" 10000 st2
    ⟨true, w1.1.res, w2.1.res, w2.2,
      Act.spawned true :: (tr1 ++ w1.1.tr ++ tr3 ++ w2.1.tr)⟩
  else ⟨false, none, none, st, [Act.spawned false]⟩

/-- The engine-side depth clamp (line 182): `min(max(depth, 5), 25)`. -/
def clampDepth (d : ℤ) : ℤ := zmin (zmax d 5) 25

/-- Search command and wait deadline in ms (lines 178-184).  `if time_limit:`
is a Python truthiness test: `None` and `0` both fall through to the depth
branch.  Time branch: `go movetime min(time_limit*1000, 25000)`, deadline
`time_limit + 8` seconds, i.e. `t*1000 + 8000` ms.  Depth branch: clamp the
depth, `go depth d`, deadline `max(d * 1.5, 20)` seconds, i.e.
`max(d*1500, 20000)` ms. -/
def goCommand (depth : ℤ) (time_limit : Option ℤ) : String × ℤ :=
  match time_limit with
  | some t =>
    if t = 0 then
      ("go depth " ++ toString (clampDepth depth), zmax (clampDepth depth * 1500) 20000)
    else ("go movetime " ++ toString (zmin (t * 1000) 25000), t * 1000 + 8000)
  | none =>
    ("go depth " ++ toString (clampDepth depth), zmax (clampDepth depth * 1500) 20000)

/-- Output of one `get_best_move` call. -/
structure RunOut where
  res : AResult
  st : St
  tr : List Act
deriving DecidableEq

/-- Body of `get_best_move` after the liveness check (lines 167-214): drain
the queue (lines 168-172), send the position (line 175), compute and send the
search command (lines 178-187), then run the result-wait loop. -/
def getBestMoveBody (fen : String) (depth : ℤ) (time_limit : Option ℤ)
    (st : St) (tr0 : List Act) : RunOut :=
  let st1 : St := { st with queue := [] }
  let trP := sendActs st1 ("position fen " ++ fen)
  let c := goCommand depth time_limit
  let trG := sendActs st1 c.1
  let w := searchWait c.2 st1
  ⟨w.1.res, w.2, tr0 ++ [Act.drainedAct] ++ trP ++ trG ++ [Act.search c.2] ++ w.1.tr⟩

/-- `get_best_move(fen, depth=25, time_limit=None)` (lines 157-218).  If the
process is dead at entry, `start_engine()` is called once (lines 163-165); if
`Popen` raises, the exception is caught by the `except` (lines 216-218) and
`None` is returned ("Analysis error"). -/
def getBestMove (fen : String) (depth : ℤ) (time_limit : Option ℤ)
    (env : SpawnEnv) (st : St) : RunOut :=
  if isAlive st then
    getBestMoveBody fen depth time_limit st []
  else
    let s := startEngine env st
    if s.ok then getBestMoveBody fen depth time_limit s.st (Act.restart :: s.tr)
    else ⟨AResult.analysisError, s.st, Act.restart :: s.tr⟩

/-- The commands sent during a trace, in order. -/
def sentCmds (tr : List Act) : List String :=
  tr.filterMap fun a => match a with | Act.sent c => some c | _ => none

/-- The search-wait deadlines recorded in a trace, in order. -/
def searchDls (tr : List Act) : List ℤ :=
  tr.filterMap fun a => match a with | Act.search dl => some dl | _ => none

/-- The HTTP-layer depth clamp (line 257): `max(5, min(depth, 30))`. -/
def routeClamp (d : ℤ) : ℤ := zmax 5 (zmin d 30)

/-- The JSON response of the `/get_best_move` route, restricted to the fields
the claims are about. -/
structure RouteResp where
  success : Bool
  best_move : Option String
  error : Option String
  depth : Option ℤ
deriving DecidableEq

/-- The `/get_best_move` Flask route (lines 235-285).  `fen = none` models a
missing parameter; `engineReady = false` models `engine` still being `None`.
The route clamps the depth to `[5, 30]`, calls the engine, and on a truthy
move returns a success response that reports the route-clamped depth; Python's
`if not best_move:` also treats an empty move string as a failure. -/
def routeGetBestMove (fen : Option String) (depth : ℤ) (time_limit : Option ℤ)
    (engineReady : Bool) (env : SpawnEnv) (st : St) : RouteResp × St × List Act :=
  match fen with
  | none => (⟨false, none, some "Missing FEN parameter", none⟩, st, [])
  | some f =>
    if engineReady then
      let d := routeClamp depth
      let o := getBestMove f d time_limit env st
      match o.res with
      | AResult.success m _ =>
        if m = "" then (⟨false, none, some "Analysis failed or timeout", none⟩, o.st, o.tr)
        else (⟨true, some m, none, some d⟩, o.st, o.tr)
      | _ => (⟨false, none, some "Analysis failed or timeout", none⟩, o.st, o.tr)
    else (⟨false, none, some "Engine not ready", none⟩, st, [])

/-- Abstract step sequence of one `get_best_move` cycle, for the concurrency
claim: drain (lines 168-172), send position (line 175), send go (line 187),
then wait for and consume the result (lines 190-214). -/
inductive CycleStep where
  | drain | sendPosition | sendGo | awaitResult
deriving DecidableEq

/-- The cycle steps in program order. -/
def analyzeCycle : List CycleStep := [CycleStep.drain, CycleStep.sendPosition,
  CycleStep.sendGo, CycleStep.awaitResult]

/-- Number of cycle steps request `r` has completed after the first `k`
scheduler slots of an interleaving of two requests (`sched` says whose step
runs in each slot).  src/app.py acquires no lock anywhere (its only use of
`threading` is the daemon reader thread, line 92), so with a threaded WSGI
server every interleaving of two handlers' cycles is admissible. -/
def doneSteps (sched : List Bool) (r : Bool) (k : ℕ) : ℕ :=
  ((sched.take k).filter fun x => x == r).length

/-- Request `r` is in flight against the engine after slot `k`: it has sent
its `go` command but not yet finished its cycle. -/
def inFlightAt (sched : List Bool) (r : Bool) (k : ℕ) : Bool :=
  decide (CycleStep.sendGo ∈ analyzeCycle.take (doneSteps sched r k)) &&
    decide (doneSteps sched r k < analyzeCycle.length)

/-- A schedule is serialized when the two requests are never simultaneously
in flight. -/
def serializedSched (sched : List Bool) : Prop :=
  ∀ k, ¬(inFlightAt sched true k = true ∧ inFlightAt sched false k = true)

/-! ### Helper lemmas about the wait loops -/

theorem swEvents_tr_shape {timeout start : ℤ} {dt : Option ℤ} :
    ∀ (evs : List QEvent) (now : ℤ), ∀ a ∈ (swEvents timeout start now dt evs).tr,
      (∃ l, a = Act.got l) ∨ ∃ p b, a = Act.polled p b := by
  intro evs
  induction evs with
  | nil =>
    intro now a ha
    simp only [swEvents] at ha
    split at ha <;> simp at ha
  | cons e rest ih =>
    intro now a ha
    cases e with
    | line l d =>
      simp only [swEvents] at ha
      split at ha
      · split at ha
        · simp at ha; exact Or.inl ⟨l, ha⟩
        · simp only [List.mem_cons] at ha
          rcases ha with h | h
          · exact Or.inl ⟨l, h⟩
          · exact ih _ a h
      · simp at ha
    | silence =>
      simp only [swEvents] at ha
      split at ha
      · split at ha
        · simp at ha; exact Or.inr ⟨_, _, ha⟩
        · simp only [List.mem_cons] at ha
          rcases ha with h | h
          · exact Or.inr ⟨_, _, h⟩
          · exact ih _ a h
      · simp at ha

theorem swQueue_tr_shape {timeout start : ℤ} {dt : Option ℤ} :
    ∀ (queue : List Line) (evs : List QEvent) (now : ℤ),
      ∀ a ∈ (swQueue timeout start now dt queue evs).tr,
      (∃ l, a = Act.got l) ∨ ∃ p b, a = Act.polled p b := by
  intro queue
  induction queue with
  | nil => intro evs now a ha; exact swEvents_tr_shape evs now a ha
  | cons l rest ih =>
    intro evs now a ha
    simp only [swQueue] at ha
    split at ha
    · split at ha
      · simp at ha; exact Or.inl ⟨l, ha⟩
      · simp only [List.mem_cons] at ha
        rcases ha with h | h
        · exact Or.inl ⟨l, h⟩
        · exact ih evs now a h
    · simp at ha

theorem sentCmds_swQueue (timeout start now : ℤ) (dt : Option ℤ)
    (queue : List Line) (evs : List QEvent) :
    sentCmds (swQueue timeout start now dt queue evs).tr = [] := by
  rw [sentCmds, List.filterMap_eq_nil_iff]
  intro a ha
  rcases swQueue_tr_shape queue evs now a ha with ⟨l, rfl⟩ | ⟨p, b, rfl⟩ <;> rfl

theorem searchDls_swQueue (timeout start now : ℤ) (dt : Option ℤ)
    (queue : List Line) (evs : List QEvent) :
    searchDls (swQueue timeout start now dt queue evs).tr = [] := by
  rw [searchDls, List.filterMap_eq_nil_iff]
  intro a ha
  rcases swQueue_tr_shape queue evs now a ha with ⟨l, rfl⟩ | ⟨p, b, rfl⟩ <;> rfl

theorem restart_notMem_swQueue (timeout start now : ℤ) (dt : Option ℤ)
    (queue : List Line) (evs : List QEvent) :
    Act.restart ∉ (swQueue timeout start now dt queue evs).tr := by
  intro h
  rcases swQueue_tr_shape queue evs now Act.restart h with ⟨l, hl⟩ | ⟨p, b, hb⟩
  · simp at hl
  · simp at hb

theorem wfEvents_tr_shape {expected : String} {timeout start : ℤ} :
    ∀ (evs : List QEvent) (now : ℤ), ∀ a ∈ (wfEvents expected timeout start now evs).tr,
      ∃ l, a = Act.got l := by
  intro evs
  induction evs with
  | nil =>
    intro now a ha
    simp only [wfEvents] at ha
    split at ha <;> simp at ha
  | cons e rest ih =>
    intro now a ha
    cases e with
    | line l d =>
      simp only [wfEvents] at ha
      split at ha
      · split at ha
        · simp at ha; exact ⟨l, ha⟩
        · simp only [List.mem_cons] at ha
          rcases ha with h | h
          · exact ⟨l, h⟩
          · exact ih _ a h
      · simp at ha
    | silence =>
      simp only [wfEvents] at ha
      split at ha
      · exact ih _ a ha
      · simp at ha

theorem wfQueue_tr_shape {expected : String} {timeout start : ℤ} :
    ∀ (queue : List Line) (evs : List QEvent) (now : ℤ),
      ∀ a ∈ (wfQueue expected timeout start now queue evs).tr, ∃ l, a = Act.got l := by
  intro queue
  induction queue with
  | nil => intro evs now a ha; exact wfEvents_tr_shape evs now a ha
  | cons l rest ih =>
    intro evs now a ha
    simp only [wfQueue] at ha
    split at ha
    · split at ha
      · simp at ha; exact ⟨l, ha⟩
      · simp only [List.mem_cons] at ha
        rcases ha with h | h
        · exact ⟨l, h⟩
        · exact ih evs now a h
    · simp at ha

theorem bestmoveStep_cases (text : String) (e : ℤ) :
    bestmoveStep text e = AResult.success ((pySplit text).getD 1 "") e ∨
      bestmoveStep text e = AResult.noLegalMoves := by
  simp only [bestmoveStep]
  split
  · exact Or.inl rfl
  · exact Or.inr rfl

theorem swEvents_got_bestmove {timeout start : ℤ} {dt : Option ℤ} :
    ∀ (evs : List QEvent) (now : ℤ) (l : Line),
      Act.got l ∈ (swEvents timeout start now dt evs).tr →
      pyStarts "bestmove" l.text = true →
      ∃ e, (swEvents timeout start now dt evs).res = bestmoveStep l.text e := by
  intro evs
  induction evs with
  | nil =>
    intro now l ha hbm
    simp only [swEvents] at ha ⊢
    split at ha <;> simp at ha
  | cons e rest ih =>
    intro now l ha hbm
    cases e with
    | line l' d =>
      simp only [swEvents] at ha ⊢
      split at ha
      · rename_i hcond
        rw [if_pos hcond]
        split at ha
        · rename_i hbm'
          rw [if_pos hbm']
          simp at ha
          subst ha
          exact ⟨now + d - start, rfl⟩
        · rename_i hbm'
          rw [if_neg hbm']
          simp only [List.mem_cons] at ha
          rcases ha with h | h
          · injection h with h2
            subst h2
            simp [hbm] at hbm'
          · simpa using ih _ l h hbm
      · simp at ha
    | silence =>
      simp only [swEvents] at ha ⊢
      split at ha
      · rename_i hcond
        rw [if_pos hcond]
        split at ha
        · rename_i hdead
          rw [if_pos hdead]
          simp at ha
        · rename_i hdead
          rw [if_neg hdead]
          simp only [List.mem_cons] at ha
          rcases ha with h | h
          · simp at h
          · simpa using ih _ l h hbm
      · simp at ha

theorem swQueue_got_bestmove {timeout start : ℤ} {dt : Option ℤ} :
    ∀ (queue : List Line) (evs : List QEvent) (now : ℤ) (l : Line),
      Act.got l ∈ (swQueue timeout start now dt queue evs).tr →
      pyStarts "bestmove" l.text = true →
      ∃ e, (swQueue timeout start now dt queue evs).res = bestmoveStep l.text e := by
  intro queue
  induction queue with
  | nil => intro evs now l ha hbm; exact swEvents_got_bestmove evs now l ha hbm
  | cons l' rest ih =>
    intro evs now l ha hbm
    simp only [swQueue] at ha ⊢
    split at ha
    · rename_i hcond
      rw [if_pos hcond]
      split at ha
      · rename_i hbm'
        rw [if_pos hbm']
        simp at ha
        subst ha
        exact ⟨now - start, rfl⟩
      · rename_i hbm'
        rw [if_neg hbm']
        simp only [List.mem_cons] at ha
        rcases ha with h | h
        · injection h with h2
          subst h2
          simp [hbm] at hbm'
        · simpa using ih evs now l h hbm
    · simp at ha

theorem swEvents_timeout_ge {timeout start : ℤ} {dt : Option ℤ} :
    ∀ (evs : List QEvent) (now : ℤ) (e : ℤ),
      (swEvents timeout start now dt evs).res = AResult.searchTimeout e → timeout ≤ e := by
  intro evs
  induction evs with
  | nil =>
    intro now e hr
    simp only [swEvents] at hr
    split at hr
    · simp at hr
    · rename_i hcond
      simp at hr
      omega
  | cons ev rest ih =>
    intro now e hr
    cases ev with
    | line l d =>
      simp only [swEvents] at hr
      split at hr
      · split at hr
        · simp only at hr
          rcases bestmoveStep_cases l.text (now + d - start) with hc | hc <;>
            rw [hc] at hr <;> simp at hr
        · simpa using ih _ e hr
      · rename_i hcond
        simp at hr
        omega
    | silence =>
      simp only [swEvents] at hr
      split at hr
      · split at hr
        · simp at hr
        · simpa using ih _ e hr
      · rename_i hcond
        simp at hr
        omega

theorem swQueue_timeout_ge {timeout start : ℤ} {dt : Option ℤ} :
    ∀ (queue : List Line) (evs : List QEvent) (now : ℤ) (e : ℤ),
      (swQueue timeout start now dt queue evs).res = AResult.searchTimeout e → timeout ≤ e := by
  intro queue
  induction queue with
  | nil => intro evs now e hr; exact swEvents_timeout_ge evs now e hr
  | cons l rest ih =>
    intro evs now e hr
    simp only [swQueue] at hr
    split at hr
    · split at hr
      · simp only at hr
        rcases bestmoveStep_cases l.text (now - start) with hc | hc <;>
          rw [hc] at hr <;> simp at hr
      · simpa using ih evs now e hr
    · rename_i hcond
      simp at hr
      omega

theorem swEvents_died_polled {timeout start : ℤ} {dt : Option ℤ} :
    ∀ (evs : List QEvent) (now : ℤ),
      (swEvents timeout start now dt evs).res = AResult.diedDuringSearch →
      ∃ p, Act.polled p false ∈ (swEvents timeout start now dt evs).tr ∧
        deadAt dt p = true := by
  intro evs
  induction evs with
  | nil =>
    intro now hr
    simp only [swEvents] at hr
    split at hr <;> simp at hr
  | cons ev rest ih =>
    intro now hr
    cases ev with
    | line l d =>
      simp only [swEvents] at hr ⊢
      split at hr
      · rename_i hcond
        rw [if_pos hcond]
        split at hr
        · rename_i hbm
          rw [if_pos hbm]
          simp only at hr
          rcases bestmoveStep_cases l.text (now + d - start) with hc | hc <;>
            rw [hc] at hr <;> simp at hr
        · rename_i hbm
          rw [if_neg hbm]
          simp only at hr
          rcases ih _ (by simpa using hr) with ⟨p, hp, hd⟩
          exact ⟨p, by simp [hp], hd⟩
      · simp at hr
    | silence =>
      simp only [swEvents] at hr ⊢
      split at hr
      · rename_i hcond
        rw [if_pos hcond]
        split at hr
        · rename_i hdead
          rw [if_pos hdead]
          exact ⟨now + 1000, by simp, hdead⟩
        · rename_i hdead
          rw [if_neg hdead]
          simp only at hr
          rcases ih _ (by simpa using hr) with ⟨p, hp, hd⟩
          exact ⟨p, by simp [hp], hd⟩
      · simp at hr

theorem swQueue_died_polled {timeout start : ℤ} {dt : Option ℤ} :
    ∀ (queue : List Line) (evs : List QEvent) (now : ℤ),
      (swQueue timeout start now dt queue evs).res = AResult.diedDuringSearch →
      ∃ p, Act.polled p false ∈ (swQueue timeout start now dt queue evs).tr ∧
        deadAt dt p = true := by
  intro queue
  induction queue with
  | nil => intro evs now hr; exact swEvents_died_polled evs now hr
  | cons l rest ih =>
    intro evs now hr
    simp only [swQueue] at hr ⊢
    split at hr
    · rename_i hcond
      rw [if_pos hcond]
      split at hr
      · rename_i hbm
        rw [if_pos hbm]
        simp only at hr
        rcases bestmoveStep_cases l.text (now - start) with hc | hc <;>
          rw [hc] at hr <;> simp at hr
      · rename_i hbm
        rw [if_neg hbm]
        simp only at hr
        rcases ih evs now (by simpa using hr) with ⟨p, hp, hd⟩
        exact ⟨p, by simp [hp], hd⟩
    · simp at hr

theorem swEvents_got_from_evs {timeout start : ℤ} {dt : Option ℤ} :
    ∀ (evs : List QEvent) (now : ℤ) (l : Line),
      Act.got l ∈ (swEvents timeout start now dt evs).tr →
      ∃ d, QEvent.line l d ∈ evs := by
  intro evs
  induction evs with
  | nil =>
    intro now l ha
    simp only [swEvents] at ha
    split at ha <;> simp at ha
  | cons ev rest ih =>
    intro now l ha
    cases ev with
    | line l' d =>
      simp only [swEvents] at ha
      split at ha
      · split at ha
        · simp at ha
          subst ha
          exact ⟨d, by simp⟩
        · simp only [List.mem_cons] at ha
          rcases ha with h | h
          · simp at h
            subst h
            exact ⟨d, by simp⟩
          · rcases ih _ l h with ⟨d', hd'⟩
            exact ⟨d', by simp [hd']⟩
      · simp at ha
    | silence =>
      simp only [swEvents] at ha
      split at ha
      · split at ha
        · simp at ha
        · simp only [List.mem_cons] at ha
          rcases ha with h | h
          · simp at h
          · rcases ih _ l h with ⟨d', hd'⟩
            exact ⟨d', by simp [hd']⟩
      · simp at ha

theorem restart_notMem_startEngine (env : SpawnEnv) (st : St) :
    Act.restart ∉ (startEngine env st).tr := by
  unfold startEngine
  split
  · intro h
    simp only [List.mem_cons, List.mem_append] at h
    rcases h with h | h
    · simp at h
    rcases h with ((h | h) | h) | h
    · unfold sendActs at h; split at h <;> simp at h
    · rcases wfQueue_tr_shape _ _ _ Act.restart h with ⟨l, hl⟩; simp at hl
    · simp only [List.mem_flatten, List.mem_map] at h
      rcases h with ⟨tr, ⟨c, _, rfl⟩, hmem⟩
      unfold sendActs at hmem; split at hmem <;> simp at hmem
    · rcases wfQueue_tr_shape _ _ _ Act.restart h with ⟨l, hl⟩; simp at hl
  · simp

theorem wfEvents_evs_sub {expected : String} {timeout start : ℤ} :
    ∀ (evs : List QEvent) (now : ℤ),
      ∀ ev ∈ (wfEvents expected timeout start now evs).evs, ev ∈ evs := by
  intro evs
  induction evs with
  | nil =>
    intro now ev h
    simp only [wfEvents] at h
    split at h <;> simpa using h
  | cons e rest ih =>
    intro now ev h
    cases e with
    | line l d =>
      simp only [wfEvents] at h
      split at h
      · split at h
        · simp only at h
          exact List.mem_cons_of_mem _ (by simpa using h)
        · simp only at h
          exact List.mem_cons_of_mem _ (ih _ ev h)
      · simpa using h
    | silence =>
      simp only [wfEvents] at h
      split at h
      · exact List.mem_cons_of_mem _ (ih _ ev h)
      · simpa using h

theorem wfQueue_evs_sub {expected : String} {timeout start : ℤ} :
    ∀ (queue : List Line) (evs : List QEvent) (now : ℤ),
      ∀ ev ∈ (wfQueue expected timeout start now queue evs).evs, ev ∈ evs := by
  intro queue
  induction queue with
  | nil => intro evs now ev h; exact wfEvents_evs_sub evs now ev h
  | cons l rest ih =>
    intro evs now ev h
    simp only [wfQueue] at h
    split at h
    · split at h
      · simpa using h
      · simp only at h
        exact ih evs now ev h
    · simpa using h

theorem swEvents_evs_sub {timeout start : ℤ} {dt : Option ℤ} :
    ∀ (evs : List QEvent) (now : ℤ),
      ∀ ev ∈ (swEvents timeout start now dt evs).evs, ev ∈ evs := by
  intro evs
  induction evs with
  | nil =>
    intro now ev h
    simp only [swEvents] at h
    split at h <;> simpa using h
  | cons e rest ih =>
    intro now ev h
    cases e with
    | line l d =>
      simp only [swEvents] at h
      split at h
      · split at h
        · simp only at h
          exact List.mem_cons_of_mem _ (by simpa using h)
        · simp only at h
          exact List.mem_cons_of_mem _ (ih _ ev h)
      · simpa using h
    | silence =>
      simp only [swEvents] at h
      split at h
      · split at h
        · simp only at h
          exact List.mem_cons_of_mem _ (by simpa using h)
        · simp only at h
          exact List.mem_cons_of_mem _ (ih _ ev h)
      · simpa using h

theorem wfEvents_now_le {expected : String} {timeout start : ℤ} :
    ∀ (evs : List QEvent) (now : ℤ),
      (∀ l d, QEvent.line l d ∈ evs → d ≤ 1000) →
      now ≤ start + timeout + 1000 →
      (wfEvents expected timeout start now evs).now ≤ start + timeout + 1000 := by
  intro evs
  induction evs with
  | nil =>
    intro now hd hn
    simp only [wfEvents]
    split <;> simp <;> omega
  | cons e rest ih =>
    intro now hd hn
    cases e with
    | line l d =>
      have hd0 : d ≤ 1000 := hd l d (by simp)
      have hdr : ∀ l' d', QEvent.line l' d' ∈ rest → d' ≤ 1000 := fun l' d' h =>
        hd l' d' (List.mem_cons_of_mem _ h)
      simp only [wfEvents]
      split
      · rename_i hcond
        split
        · simp only
          omega
        · simp only
          exact ih (now + d) hdr (by omega)
      · simpa using hn
    | silence =>
      have hdr : ∀ l' d', QEvent.line l' d' ∈ rest → d' ≤ 1000 := fun l' d' h =>
        hd l' d' (List.mem_cons_of_mem _ h)
      simp only [wfEvents]
      split
      · rename_i hcond
        exact ih (now + 500) hdr (by omega)
      · simpa using hn

theorem wfQueue_now_le {expected : String} {timeout start : ℤ} :
    ∀ (queue : List Line) (evs : List QEvent) (now : ℤ),
      (∀ l d, QEvent.line l d ∈ evs → d ≤ 1000) →
      now ≤ start + timeout + 1000 →
      (wfQueue expected timeout start now queue evs).now ≤ start + timeout + 1000 := by
  intro queue
  induction queue with
  | nil => intro evs now hd hn; exact wfEvents_now_le evs now hd hn
  | cons l rest ih =>
    intro evs now hd hn
    simp only [wfQueue]
    split
    · split
      · simpa using hn
      · simp only
        exact ih evs now hd hn
    · simpa using hn

theorem swEvents_now_le {timeout start : ℤ} {dt : Option ℤ} :
    ∀ (evs : List QEvent) (now : ℤ),
      (∀ l d, QEvent.line l d ∈ evs → d ≤ 1000) →
      now ≤ start + timeout + 1000 →
      (swEvents timeout start now dt evs).now ≤ start + timeout + 1000 := by
  intro evs
  induction evs with
  | nil =>
    intro now hd hn
    simp only [swEvents]
    split <;> simpa using hn
  | cons e rest ih =>
    intro now hd hn
    cases e with
    | line l d =>
      have hd0 : d ≤ 1000 := hd l d (by simp)
      have hdr : ∀ l' d', QEvent.line l' d' ∈ rest → d' ≤ 1000 := fun l' d' h =>
        hd l' d' (List.mem_cons_of_mem _ h)
      simp only [swEvents]
      split
      · rename_i hcond
        split
        · simp only
          omega
        · simp only
          exact ih (now + d) hdr (by omega)
      · simpa using hn
    | silence =>
      have hdr : ∀ l' d', QEvent.line l' d' ∈ rest → d' ≤ 1000 := fun l' d' h =>
        hd l' d' (List.mem_cons_of_mem _ h)
      simp only [swEvents]
      split
      · rename_i hcond
        split
        · simp only
          omega
        · simp only
          exact ih (now + 1000) hdr (by omega)
      · simpa using hn

theorem swQueue_now_le {timeout start : ℤ} {dt : Option ℤ} :
    ∀ (queue : List Line) (evs : List QEvent) (now : ℤ),
      (∀ l d, QEvent.line l d ∈ evs → d ≤ 1000) →
      now ≤ start + timeout + 1000 →
      (swQueue timeout start now dt queue evs).now ≤ start + timeout + 1000 := by
  intro queue
  induction queue with
  | nil => intro evs now hd hn; exact swEvents_now_le evs now hd hn
  | cons l rest ih =>
    intro evs now hd hn
    simp only [swQueue]
    split
    · split
      · simpa using hn
      · simp only
        exact ih evs now hd hn
    · simpa using hn

theorem sentCmds_append (a b : List Act) :
    sentCmds (a ++ b) = sentCmds a ++ sentCmds b := by
  simp [sentCmds, List.filterMap_append]

theorem searchDls_append (a b : List Act) :
    searchDls (a ++ b) = searchDls a ++ searchDls b := by
  simp [searchDls, List.filterMap_append]

/-- Normal form of `get_best_move` when the process is alive at entry: no
restart, the queue is drained, the two commands are sent, and everything
else is the result-wait loop over the environment events. -/
theorem getBestMove_alive_eq (fen : String) (depth : ℤ) (tl : Option ℤ)
    (env : SpawnEnv) (st : St) (halive : isAlive st = true) :
    getBestMove fen depth tl env st =
      ⟨(swQueue (goCommand depth tl).2 st.now st.now st.deathTime [] st.evs).res,
       ⟨(swQueue (goCommand depth tl).2 st.now st.now st.deathTime [] st.evs).queue,
        (swQueue (goCommand depth tl).2 st.now st.now st.deathTime [] st.evs).evs,
        (swQueue (goCommand depth tl).2 st.now st.now st.deathTime [] st.evs).now,
        st.deathTime⟩,
       [Act.drainedAct, Act.sent ("position fen " ++ fen), Act.sent (goCommand depth tl).1,
        Act.search (goCommand depth tl).2] ++
         (swQueue (goCommand depth tl).2 st.now st.now st.deathTime [] st.evs).tr⟩ := by
  have h1 : isAlive { st with queue := ([] : List Line) } = true := halive
  rw [getBestMove, if_pos halive, getBestMoveBody]
  simp only [searchWait, sendActs, h1, if_pos]
  rfl

/-- With a live process, the sent commands are exactly the position command
followed by the search command, and exactly one search deadline is recorded. -/
theorem getBestMove_trace_cmds (fen : String) (depth : ℤ) (tl : Option ℤ)
    (env : SpawnEnv) (st : St) (halive : isAlive st = true) :
    sentCmds (getBestMove fen depth tl env st).tr
        = ["position fen " ++ fen, (goCommand depth tl).1] ∧
    searchDls (getBestMove fen depth tl env st).tr = [(goCommand depth tl).2] := by
  rw [getBestMove_alive_eq fen depth tl env st halive]
  constructor
  · rw [show ([Act.drainedAct, Act.sent ("position fen " ++ fen),
        Act.sent (goCommand depth tl).1, Act.search (goCommand depth tl).2] : List Act)
        = [Act.drainedAct, Act.sent ("position fen " ++ fen),
           Act.sent (goCommand depth tl).1, Act.search (goCommand depth tl).2] from rfl]
    rw [sentCmds_append, sentCmds_swQueue]
    simp [sentCmds]
  · rw [searchDls_append, searchDls_swQueue]
    simp [searchDls]

/-- With a live process, any line consumed by the call was consumed by the
result-wait loop. -/
theorem getBestMove_got_alive (fen : String) (depth : ℤ) (tl : Option ℤ)
    (env : SpawnEnv) (st : St) (l : Line) (halive : isAlive st = true)
    (h : Act.got l ∈ (getBestMove fen depth tl env st).tr) :
    Act.got l ∈ (swQueue (goCommand depth tl).2 st.now st.now st.deathTime [] st.evs).tr := by
  rw [getBestMove_alive_eq fen depth tl env st halive] at h
  simpa using h

/-- With a dead process at entry, `get_best_move` first restarts. -/
theorem getBestMove_dead_eq (fen : String) (depth : ℤ) (tl : Option ℤ)
    (env : SpawnEnv) (st : St) (hdead : isAlive st = false) :
    getBestMove fen depth tl env st =
      if (startEngine env st).ok then
        getBestMoveBody fen depth tl (startEngine env st).st
          (Act.restart :: (startEngine env st).tr)
      else ⟨AResult.analysisError, (startEngine env st).st,
        Act.restart :: (startEngine env st).tr⟩ := by
  rw [getBestMove, if_neg (by simp [hdead])]

theorem sendActs_count_restart (st : St) (c : String) :
    (sendActs st c).count Act.restart = 0 := by
  unfold sendActs
  split <;> simp

theorem getBestMoveBody_count_restart (fen : String) (depth : ℤ) (tl : Option ℤ)
    (st : St) (tr0 : List Act) :
    (getBestMoveBody fen depth tl st tr0).tr.count Act.restart
      = tr0.count Act.restart := by
  unfold getBestMoveBody searchWait
  simp only [List.count_append, List.count_cons, List.count_nil, sendActs_count_restart]
  have h0 : (swQueue (goCommand depth tl).2 st.now st.now st.deathTime []
      st.evs).tr.count Act.restart = 0 :=
    List.count_eq_zero.mpr (restart_notMem_swQueue _ _ _ _ _ _)
  simp [h0]

theorem getBestMoveBody_now_le (fen : String) (depth : ℤ) (tl : Option ℤ)
    (st : St) (tr0 : List Act)
    (hdur : ∀ l d, QEvent.line l d ∈ st.evs → d ≤ 1000)
    (hdl : 0 ≤ (goCommand depth tl).2) :
    (getBestMoveBody fen depth tl st tr0).st.now
      ≤ st.now + (goCommand depth tl).2 + 1000 := by
  show (swQueue (goCommand depth tl).2 st.now st.now st.deathTime [] st.evs).now
      ≤ st.now + (goCommand depth tl).2 + 1000
  exact swQueue_now_le [] st.evs st.now hdur (by omega)

theorem startEngine_now_le (env : SpawnEnv) (st : St)
    (hdur : ∀ l d, QEvent.line l d ∈ st.evs → d ≤ 1000) :
    (startEngine env st).st.now ≤ st.now + 22000 := by
  unfold startEngine
  split
  · have h1 := @wfQueue_now_le "uciok" 10000 st.now
      st.queue st.evs st.now hdur (by omega)
    have hsub := @wfQueue_evs_sub "uciok" 10000 st.now
      st.queue st.evs st.now
    have hdur2 : ∀ l d, QEvent.line l d ∈
        (wfQueue "uciok" 10000 st.now st.now st.queue st.evs).evs → d ≤ 1000 :=
      fun l d h => hdur l d (hsub _ h)
    have h2 := @wfQueue_now_le "readyok" 10000
      (wfQueue "uciok" 10000 st.now st.now st.queue st.evs).now
      (wfQueue "uciok" 10000 st.now st.now st.queue st.evs).queue
      (wfQueue "uciok" 10000 st.now st.now st.queue st.evs).evs
      (wfQueue "uciok" 10000 st.now st.now st.queue st.evs).now
      hdur2 (by omega)
    show (wfQueue "readyok" 10000
        (wfQueue "uciok" 10000 st.now st.now st.queue st.evs).now
        (wfQueue "uciok" 10000 st.now st.now st.queue st.evs).now
        (wfQueue "uciok" 10000 st.now st.now st.queue st.evs).queue
        (wfQueue "uciok" 10000 st.now st.now st.queue st.evs).evs).now ≤ st.now + 22000
    omega
  · show st.now ≤ st.now + 22000
    omega

theorem startEngine_evs_sub (env : SpawnEnv) (st : St) :
    ∀ ev ∈ (startEngine env st).st.evs, ev ∈ st.evs := by
  unfold startEngine
  split
  · intro ev h
    simp only [waitFor] at h
    exact wfQueue_evs_sub _ _ _ ev (wfQueue_evs_sub _ _ _ ev h)
  · intro ev h
    exact h

/-! ### Claim theorems -/

/-- C1: for every analyze call given a depth `D` and no time budget (live
process, so the call reaches the search), `D` is clamped into `[5, 25]`
before use — even if the input is out of range — and the wait deadline used
for the search equals `max(clampedD * 1.5, 20)` seconds, i.e.
`zmax (clampDepth D * 1500) 20000` ms: the only commands sent are the
position command and `go depth clampedD`, and exactly that deadline is
recorded for the result wait. -/
theorem c1_depth_clamp_and_deadline (fen : String) (D : ℤ) (env : SpawnEnv)
    (st : St) (halive : isAlive st = true) :
    sentCmds (getBestMove fen D none env st).tr
        = ["position fen " ++ fen, "go depth " ++ toString (clampDepth D)] ∧
    searchDls (getBestMove fen D none env st).tr
        = [zmax (clampDepth D * 1500) 20000] ∧
    5 ≤ clampDepth D ∧ clampDepth D ≤ 25 := by
  rcases getBestMove_trace_cmds fen D none env st halive with ⟨h1, h2⟩
  refine ⟨h1, h2, ?_, ?_⟩ <;>
    · unfold clampDepth zmin zmax
      split_ifs <;> omega

/-- Witness for C1 at depth 30 (outside the range) with a live process. -/
theorem c1_witness :
    sentCmds (getBestMove "f" 30 none ⟨true, none⟩ ⟨[], [], 0, none⟩).tr
        = ["position fen " ++ "f", "go depth " ++ toString (clampDepth 30)] ∧
    searchDls (getBestMove "f" 30 none ⟨true, none⟩ ⟨[], [], 0, none⟩).tr
        = [zmax (clampDepth 30 * 1500) 20000] ∧
    5 ≤ clampDepth 30 ∧ clampDepth 30 ≤ 25 :=
  c1_depth_clamp_and_deadline "f" 30 ⟨true, none⟩ ⟨[], [], 0, none⟩ (by decide)

/-- C2: for every analyze call given a positive time budget `T` seconds, the
time budget takes precedence over any depth also given (the commands sent
are exactly the position command and the movetime command, whatever `D` is),
the movetime value is `min(T*1000, 25000)` ms, and the wait deadline is
`T + 8` seconds, i.e. `T*1000 + 8000` ms. -/
theorem c2_movetime_and_deadline (fen : String) (D T : ℤ) (env : SpawnEnv)
    (st : St) (halive : isAlive st = true) (hT : 0 < T) :
    sentCmds (getBestMove fen D (some T) env st).tr
        = ["position fen " ++ fen, "go movetime " ++ toString (zmin (T * 1000) 25000)] ∧
    searchDls (getBestMove fen D (some T) env st).tr = [T * 1000 + 8000] := by
  rcases getBestMove_trace_cmds fen D (some T) env st halive with ⟨h1, h2⟩
  have hg : goCommand D (some T)
      = ("go movetime " ++ toString (zmin (T * 1000) 25000), T * 1000 + 8000) := by
    simp only [goCommand]
    rw [if_neg (by omega : ¬T = 0)]
  rw [hg] at h1 h2
  exact ⟨h1, h2⟩

/-- Witness for C2 at T = 3 s, depth 10 also given. -/
theorem c2_witness :
    sentCmds (getBestMove "f" 10 (some 3) ⟨true, none⟩ ⟨[], [], 0, none⟩).tr
        = ["position fen " ++ "f", "go movetime " ++ toString (zmin (3 * 1000) 25000)] ∧
    searchDls (getBestMove "f" 10 (some 3) ⟨true, none⟩ ⟨[], [], 0, none⟩).tr
        = [3 * 1000 + 8000] :=
  c2_movetime_and_deadline "f" 10 3 ⟨true, none⟩ ⟨[], [], 0, none⟩ (by decide) (by decide)

/-- C3 counterexample: no stop command is ever sent on timeout, so request
1's search keeps running after its deadline and its late completion line
(tagged `old`) can be enqueued after request 2's drain.  Here it arrives
1 s into request 2's wait: request 2 consumes it — observing a line
produced during request 1's window — and even returns it as its own move. -/
theorem c3_counterexample :
    Act.got ⟨true, "bestmove a7a5"⟩ ∈ (getBestMove "f" 5 none ⟨true, none⟩
        ⟨[], [QEvent.line ⟨true, "bestmove a7a5"⟩ 1000], 0, none⟩).tr ∧
    (getBestMove "f" 5 none ⟨true, none⟩
        ⟨[], [QEvent.line ⟨true, "bestmove a7a5"⟩ 1000], 0, none⟩).res
      = AResult.success "a7a5" 1000 := by decide

/-- C3 (amended): all output lines still queued at the start of the second
request's cycle are drained before its position command is sent — the call
is extensionally equal to the same call on an empty queue, and its trace
begins with the drain followed by the position command — and every line the
request consumes comes from the environment's post-drain deliveries, never
from the pre-drain queue.  What is NOT guaranteed (see the counterexample)
is that those deliveries are free of first-window lines: a late line of the
previous request delivered after the drain is consumed like any other. -/
theorem c3_amended_drain_scope (fen : String) (D : ℤ) (tl : Option ℤ) (env : SpawnEnv)
    (q : List Line) (evs : List QEvent) (now : ℤ) (dt : Option ℤ)
    (halive : isAlive ⟨q, evs, now, dt⟩ = true) :
    getBestMove fen D tl env ⟨q, evs, now, dt⟩
        = getBestMove fen D tl env ⟨[], evs, now, dt⟩ ∧
    (getBestMove fen D tl env ⟨q, evs, now, dt⟩).tr.take 2
        = [Act.drainedAct, Act.sent ("position fen " ++ fen)] ∧
    ∀ l, Act.got l ∈ (getBestMove fen D tl env ⟨q, evs, now, dt⟩).tr →
      ∃ d, QEvent.line l d ∈ evs := by
  have halive2 : isAlive ⟨([] : List Line), evs, now, dt⟩ = true := halive
  refine ⟨?_, ?_, ?_⟩
  · rw [getBestMove_alive_eq fen D tl env _ halive,
      getBestMove_alive_eq fen D tl env _ halive2]
  · rw [getBestMove_alive_eq fen D tl env _ halive]
    rfl
  · intro l h
    have h2 := getBestMove_got_alive fen D tl env _ l halive h
    have h3 : Act.got l ∈ (swEvents (goCommand D tl).2 now now dt evs).tr := h2
    exact swEvents_got_from_evs evs now l h3

/-- Witness for C3 (amended): a stale `bestmove` line is queued from the
previous request's window; the fresh environment delivers the real
completion after the drain. -/
theorem c3_amended_witness :
    getBestMove "f" 5 none ⟨true, none⟩
        ⟨[⟨true, "bestmove a2a3"⟩], [QEvent.line ⟨false, "bestmove e2e4"⟩ 500], 0, none⟩
      = getBestMove "f" 5 none ⟨true, none⟩
        ⟨[], [QEvent.line ⟨false, "bestmove e2e4"⟩ 500], 0, none⟩ ∧
    (getBestMove "f" 5 none ⟨true, none⟩
        ⟨[⟨true, "bestmove a2a3"⟩], [QEvent.line ⟨false, "bestmove e2e4"⟩ 500], 0, none⟩).tr.take 2
      = [Act.drainedAct, Act.sent ("position fen " ++ "f")] ∧
    ∀ l, Act.got l ∈ (getBestMove "f" 5 none ⟨true, none⟩
        ⟨[⟨true, "bestmove a2a3"⟩], [QEvent.line ⟨false, "bestmove e2e4"⟩ 500], 0, none⟩).tr →
      ∃ d, QEvent.line l d ∈ [QEvent.line ⟨false, "bestmove e2e4"⟩ 500] :=
  c3_amended_drain_scope "f" 5 none ⟨true, none⟩ [⟨true, "bestmove a2a3"⟩]
    [QEvent.line ⟨false, "bestmove e2e4"⟩ 500] 0 none (by decide)

/-- Environment for the C4 counterexample: the process dies at t = 10 s, but
the queue keeps yielding non-completion lines every 0.9 s, so the loop never
hits an empty poll and never notices the death. -/
def c4evs : List QEvent := List.replicate 23 (QEvent.line ⟨false, "info"⟩ 900)

/-- C4 counterexample: depth 5 gives a 20 s deadline; the deadline elapses
with no completion line and the process is dead at that point (dead since
t = 10 s), yet the call reports the search-timeout failure (at 20.7 s), not
the process-death failure: the code performs no liveness check when the
deadline expires, only after empty 1 s polls. -/
theorem c4_counterexample :
    searchDls (getBestMove "f" 5 none ⟨true, none⟩ ⟨[], c4evs, 0, some 10000⟩).tr
        = [20000] ∧
    (getBestMove "f" 5 none ⟨true, none⟩ ⟨[], c4evs, 0, some 10000⟩).res
        = AResult.searchTimeout 20700 ∧
    deadAt (some 10000) 20000 = true ∧
    (getBestMove "f" 5 none ⟨true, none⟩ ⟨[], c4evs, 0, some 10000⟩).res
        ≠ AResult.diedDuringSearch := by decide

/-- C4 (amended): the timeout failure is reported at or after the deadline,
never before; the process-death failure is returned only when an in-loop
liveness check — performed after an empty 1 s poll, possibly before the
deadline — actually observed the process dead.  There is no liveness check
at deadline expiry, so a death the polls never observed yields the timeout
failure. -/
theorem c4_amended_death_detection (fen : String) (D : ℤ) (tl : Option ℤ)
    (env : SpawnEnv) (st : St) (halive : isAlive st = true) :
    (∀ e, (getBestMove fen D tl env st).res = AResult.searchTimeout e →
      (goCommand D tl).2 ≤ e) ∧
    ((getBestMove fen D tl env st).res = AResult.diedDuringSearch →
      ∃ p, Act.polled p false ∈ (getBestMove fen D tl env st).tr ∧
        deadAt st.deathTime p = true) := by
  rw [getBestMove_alive_eq fen D tl env st halive]
  constructor
  · intro e h
    exact swQueue_timeout_ge [] st.evs st.now e h
  · intro h
    rcases swQueue_died_polled [] st.evs st.now h with ⟨p, hp, hd⟩
    exact ⟨p, by simp [hp], hd⟩

/-- Environment for the C4 witness: 20 empty polls, process never dies. -/
def c4wevs : List QEvent := List.replicate 20 QEvent.silence

/-- Witness for C4 (amended): a never-responding live process at depth 5. -/
theorem c4_amended_witness :
    (∀ e, (getBestMove "f" 5 none ⟨true, none⟩ ⟨[], c4wevs, 0, none⟩).res
        = AResult.searchTimeout e → (goCommand 5 none).2 ≤ e) ∧
    ((getBestMove "f" 5 none ⟨true, none⟩ ⟨[], c4wevs, 0, none⟩).res
        = AResult.diedDuringSearch →
      ∃ p, Act.polled p false ∈
          (getBestMove "f" 5 none ⟨true, none⟩ ⟨[], c4wevs, 0, none⟩).tr ∧
        deadAt none p = true) :=
  c4_amended_death_detection "f" 5 none ⟨true, none⟩ ⟨[], c4wevs, 0, none⟩ (by decide)

/-- C5: every completion line (a line starting with the `bestmove` prefix)
consumed by the call with at least two whitespace-separated fields settles
the result: if the second field is the no-move sentinel `(none)` the call
returns the no-legal-move failure, otherwise it returns success carrying
that second field as the move together with an elapsed wall-clock time. -/
theorem c5_completion_parsing (fen : String) (D : ℤ) (tl : Option ℤ)
    (env : SpawnEnv) (st : St) (l : Line) (halive : isAlive st = true)
    (hgot : Act.got l ∈ (getBestMove fen D tl env st).tr)
    (hbm : pyStarts "bestmove" l.text = true)
    (hlen : 2 ≤ (pySplit l.text).length) :
    ((pySplit l.text).getD 1 "" = "(none)" →
      (getBestMove fen D tl env st).res = AResult.noLegalMoves) ∧
    ((pySplit l.text).getD 1 "" ≠ "(none)" →
      ∃ e, (getBestMove fen D tl env st).res
          = AResult.success ((pySplit l.text).getD 1 "") e) := by
  have h2 := getBestMove_got_alive fen D tl env st l halive hgot
  rcases swQueue_got_bestmove [] st.evs st.now l h2 hbm with ⟨e, he⟩
  have hres : (getBestMove fen D tl env st).res = bestmoveStep l.text e := by
    rw [getBestMove_alive_eq fen D tl env st halive]
    exact he
  constructor
  · intro hnone
    rw [hres]
    simp only [bestmoveStep]
    rw [if_neg]
    rintro ⟨-, hne⟩
    exact hne hnone
  · intro hne
    refine ⟨e, ?_⟩
    rw [hres]
    simp only [bestmoveStep]
    rw [if_pos ⟨hlen, hne⟩]

/-- Witness for C5: the completion line `bestmove e2e4` is consumed. -/
theorem c5_witness :
    ((pySplit (Line.mk false "bestmove e2e4").text).getD 1 "" = "(none)" →
      (getBestMove "f" 5 none ⟨true, none⟩
          ⟨[], [QEvent.line ⟨false, "bestmove e2e4"⟩ 500], 0, none⟩).res
        = AResult.noLegalMoves) ∧
    ((pySplit (Line.mk false "bestmove e2e4").text).getD 1 "" ≠ "(none)" →
      ∃ e, (getBestMove "f" 5 none ⟨true, none⟩
          ⟨[], [QEvent.line ⟨false, "bestmove e2e4"⟩ 500], 0, none⟩).res
        = AResult.success ((pySplit (Line.mk false "bestmove e2e4").text).getD 1 "") e) :=
  c5_completion_parsing "f" 5 none ⟨true, none⟩
    ⟨[], [QEvent.line ⟨false, "bestmove e2e4"⟩ 500], 0, none⟩
    ⟨false, "bestmove e2e4"⟩ (by decide) (by decide) (by decide) (by decide)

/-- C6 counterexample: a malformed completion line (fewer than two fields,
here the bare line `bestmove`) is NOT treated as a distinct protocol error:
it falls into the same branch — and produces the same result — as the
no-move sentinel line `bestmove (none)`, namely the no-legal-move failure
(the "No legal moves" return site, lines 203-205 of src/app.py).  The code
has no protocol-error branch at all. -/
theorem c6_counterexample :
    (getBestMove "f" 5 none ⟨true, none⟩
        ⟨[], [QEvent.line ⟨false, "bestmove"⟩ 500], 0, none⟩).res
      = AResult.noLegalMoves ∧
    (getBestMove "f" 5 none ⟨true, none⟩
        ⟨[], [QEvent.line ⟨false, "bestmove (none)"⟩ 500], 0, none⟩).res
      = AResult.noLegalMoves := by decide

/-- C6 (amended): a completion line with fewer than two whitespace-separated
fields never crashes the caller — the call still returns a result value —
but it is coalesced into the no-legal-move branch (the short-circuit
`len(parts) >= 2 and ...` fails), not reported as a distinct protocol-error
failure kind. -/
theorem c6_amended_malformed_no_crash (fen : String) (D : ℤ) (tl : Option ℤ)
    (env : SpawnEnv) (st : St) (l : Line) (halive : isAlive st = true)
    (hgot : Act.got l ∈ (getBestMove fen D tl env st).tr)
    (hbm : pyStarts "bestmove" l.text = true)
    (hlen : (pySplit l.text).length < 2) :
    (getBestMove fen D tl env st).res = AResult.noLegalMoves := by
  have h2 := getBestMove_got_alive fen D tl env st l halive hgot
  rcases swQueue_got_bestmove [] st.evs st.now l h2 hbm with ⟨e, he⟩
  have hres : (getBestMove fen D tl env st).res = bestmoveStep l.text e := by
    rw [getBestMove_alive_eq fen D tl env st halive]
    exact he
  rw [hres]
  simp only [bestmoveStep]
  rw [if_neg]
  rintro ⟨hl2, -⟩
  omega

/-- Witness for C6 (amended): the bare line `bestmove` (one field). -/
theorem c6_amended_witness :
    (getBestMove "f" 5 none ⟨true, none⟩
        ⟨[], [QEvent.line ⟨false, "bestmove"⟩ 500], 0, none⟩).res
      = AResult.noLegalMoves :=
  c6_amended_malformed_no_crash "f" 5 none ⟨true, none⟩
    ⟨[], [QEvent.line ⟨false, "bestmove"⟩ 500], 0, none⟩
    ⟨false, "bestmove"⟩ (by decide) (by decide) (by decide) (by decide)

/-- Environment for the C7 scenarios: the restart handshake succeeds
immediately, then the search sees only empty polls until its deadline. -/
def c7evs : List QEvent :=
  [QEvent.line ⟨false, "uciok"⟩ 0, QEvent.line ⟨false, "readyok"⟩ 0] ++
    List.replicate 20 QEvent.silence

/-- C7 counterexample: the engine is dead at entry (death time 0), exactly
one restart happens and succeeds, and the call then runs into its 20 s
search deadline: the result is the timeout failure — neither a success nor
a process-death/spawn failure, contradicting the claim's dichotomy. -/
theorem c7_counterexample :
    (getBestMove "f" 5 none ⟨true, none⟩ ⟨[], c7evs, 0, some 0⟩).res
        = AResult.searchTimeout 20000 ∧
    (getBestMove "f" 5 none ⟨true, none⟩ ⟨[], c7evs, 0, some 0⟩).tr.count Act.restart
        = 1 ∧
    (∀ m e, (getBestMove "f" 5 none ⟨true, none⟩ ⟨[], c7evs, 0, some 0⟩).res
        ≠ AResult.success m e) ∧
    (getBestMove "f" 5 none ⟨true, none⟩ ⟨[], c7evs, 0, some 0⟩).res
        ≠ AResult.diedDuringSearch ∧
    (getBestMove "f" 5 none ⟨true, none⟩ ⟨[], c7evs, 0, some 0⟩).res
        ≠ AResult.analysisError := by
  have hres : (getBestMove "f" 5 none ⟨true, none⟩ ⟨[], c7evs, 0, some 0⟩).res
      = AResult.searchTimeout 20000 := by decide
  refine ⟨hres, by decide, ?_, ?_, ?_⟩
  · intro m e
    rw [hres]
    simp
  · rw [hres]
    simp
  · rw [hres]
    simp

/-- C7 (amended): if the engine process is dead when the call is made,
exactly one restart attempt is made before proceeding — and never more than
one per call (zero when the process is alive).  The call always returns a
result without hanging: when every line the environment delivers takes at
most the 1 s poll granularity and the computed deadline is nonnegative, the
call finishes within the deadline plus the two 10 s handshake timeouts plus
3 s of poll-granularity slack.  The result may be success or any failure
kind: timeout and no-legal-move are possible after a successful restart, not
only process-death/spawn failures. -/
theorem c7_amended_one_restart_no_hang (fen : String) (D : ℤ) (tl : Option ℤ)
    (env : SpawnEnv) (st : St)
    (hdur : ∀ l d, QEvent.line l d ∈ st.evs → d ≤ 1000)
    (hdl : 0 ≤ (goCommand D tl).2) :
    ((getBestMove fen D tl env st).tr.count Act.restart
        = if isAlive st = true then 0 else 1) ∧
    (getBestMove fen D tl env st).st.now ≤ st.now + (goCommand D tl).2 + 23000 := by
  cases halive : isAlive st with
  | true =>
    constructor
    · rw [getBestMove_alive_eq fen D tl env st halive, if_pos rfl]
      rw [List.count_append]
      have h0 : (swQueue (goCommand D tl).2 st.now st.now st.deathTime []
          st.evs).tr.count Act.restart = 0 :=
        List.count_eq_zero.mpr (restart_notMem_swQueue _ _ _ _ _ _)
      simp [h0]
    · rw [getBestMove_alive_eq fen D tl env st halive]
      show (swQueue (goCommand D tl).2 st.now st.now st.deathTime [] st.evs).now
          ≤ st.now + (goCommand D tl).2 + 23000
      have hb := @swQueue_now_le (goCommand D tl).2 st.now st.deathTime
        [] st.evs st.now hdur (by omega)
      omega
  | false =>
    rw [getBestMove_dead_eq fen D tl env st halive]
    cases hspawn : env.spawnOk with
    | false =>
      have hs : startEngine env st = ⟨false, none, none, st, [Act.spawned false]⟩ := by
        rw [startEngine, if_neg (by simp [hspawn])]
      rw [hs]
      constructor
      · simp
      · show st.now ≤ st.now + (goCommand D tl).2 + 23000
        omega
    | true =>
      have hok : (startEngine env st).ok = true := by
        rw [startEngine, if_pos hspawn]
      rw [if_pos hok]
      constructor
      · rw [getBestMoveBody_count_restart]
        simp [List.count_cons,
          List.count_eq_zero.mpr (restart_notMem_startEngine env st)]
      · have h1 := startEngine_now_le env st hdur
        have hdur2 : ∀ l d, QEvent.line l d ∈ (startEngine env st).st.evs → d ≤ 1000 :=
          fun l d h => hdur l d (startEngine_evs_sub env st _ h)
        have h2 := getBestMoveBody_now_le fen D tl (startEngine env st).st
          (Act.restart :: (startEngine env st).tr) hdur2 hdl
        omega

/-- Witness for C7 (amended): dead process at entry, quick handshake,
silent search. -/
theorem c7_amended_witness :
    ((getBestMove "f" 5 none ⟨true, none⟩ ⟨[], c7evs, 0, some 0⟩).tr.count Act.restart
        = if isAlive ⟨[], c7evs, 0, some 0⟩ = true then 0 else 1) ∧
    (getBestMove "f" 5 none ⟨true, none⟩ ⟨[], c7evs, 0, some 0⟩).st.now
        ≤ (⟨[], c7evs, 0, some 0⟩ : St).now + (goCommand 5 none).2 + 23000 :=
  c7_amended_one_restart_no_hang "f" 5 none ⟨true, none⟩ ⟨[], c7evs, 0, some 0⟩
    (by
      intro l d h
      simp [c7evs, List.mem_replicate] at h
      rcases h with ⟨-, h2⟩ | ⟨-, h2⟩ <;> omega)
    (by decide)

/-- State for the C8 scenarios: the process is dead (death time 0) and a
stale `uciok` line from the previous process instance is still queued;
the fresh environment then supplies the new process's lines. -/
def c8st : St := ⟨[⟨true, "uciok"⟩],
  [QEvent.line ⟨false, "readyok"⟩ 0, QEvent.line ⟨false, "bestmove e2e4"⟩ 500],
  0, some 0⟩

/-- C8 counterexample: the output queue is NOT rebuilt on restart
(`start_engine` never touches `self.output_queue`, created once at line 15),
so the restart's `uciok` handshake wait is satisfied by the stale line of
the previous, now-dead process instance: an old line is delivered to a wait
issued against the new process. -/
theorem c8_counterexample :
    (startEngine ⟨true, none⟩ c8st).uciAck = some ⟨true, "uciok"⟩ ∧
    Act.restart ∈ (getBestMove "f" 5 none ⟨true, none⟩ c8st).tr ∧
    Act.got ⟨true, "uciok"⟩ ∈ (getBestMove "f" 5 none ⟨true, none⟩ c8st).tr := by
  decide

/-- C8 (amended): the ordered output channel is created once per engine
object and survives restarts; whenever a restart happens with a leftover
line from the previous process instance at the head of the queue whose text
contains the `uciok` token, that stale line is consumed by — and returned
as the acknowledgement of — the new process's handshake wait. -/
theorem c8_amended_stale_delivery (env : SpawnEnv) (st : St) (s : String)
    (rest : List Line) (hok : env.spawnOk = true)
    (hq : st.queue = Line.mk true s :: rest) (hmatch : pyIn "uciok" s = true) :
    (startEngine env st).uciAck = some (Line.mk true s) ∧
    Act.got (Line.mk true s) ∈ (startEngine env st).tr := by
  have hw : wfQueue "uciok" 10000 st.now st.now st.queue st.evs
      = ⟨some (Line.mk true s), st.now, rest, st.evs, [Act.got (Line.mk true s)]⟩ := by
    rw [hq]
    simp only [wfQueue]
    rw [if_pos (by omega : st.now - st.now < 10000), if_pos hmatch]
  simp only [startEngine, if_pos hok, waitFor]
  simp only [hw]
  constructor
  · trivial
  · simp

/-- Witness for C8 (amended) at the concrete stale-queue state. -/
theorem c8_amended_witness :
    (startEngine ⟨true, none⟩ c8st).uciAck = some (Line.mk true "uciok") ∧
    Act.got (Line.mk true "uciok") ∈ (startEngine ⟨true, none⟩ c8st).tr :=
  c8_amended_stale_delivery ⟨true, none⟩ c8st "uciok" [] (by decide) (by decide)
    (by decide)

/-- C9 counterexample: src/app.py wraps no lock around the analyze cycle
(the file's only threading use is the daemon reader thread, line 92), so
with a threaded WSGI server the steps of two concurrent `get_best_move`
cycles may interleave arbitrarily.  The schedule that runs request A's
drain/position/go and then request B's drain/position/go leaves both
requests in flight against the single engine process at once: the cycle is
not serialized. -/
theorem c9_counterexample :
    ¬ serializedSched [true, true, true, false, false, false] := by
  intro h
  exact h 6 (by decide)

/-- C9 (amended): the analyze cycle is guarded by no mutual-exclusion
mechanism; there exists an interleaving of two concurrent analyze cycles
and a point at which both requests have sent their search command and are
simultaneously in flight against the single engine process. -/
theorem c9_amended_no_mutual_exclusion :
    ∃ sched k, inFlightAt sched true k = true ∧ inFlightAt sched false k = true :=
  ⟨[true, true, true, false, false, false], 6, by decide, by decide⟩

/-- The `/get_best_move` route hands the engine trace through unchanged, and
a success response always reports the route-clamped depth. -/
theorem routeGetBestMove_normal (f : String) (D : ℤ) (tl : Option ℤ)
    (env : SpawnEnv) (st : St) :
    (routeGetBestMove (some f) D tl true env st).2.2
        = (getBestMove f (routeClamp D) tl env st).tr ∧
    ((routeGetBestMove (some f) D tl true env st).1.success = true →
      (routeGetBestMove (some f) D tl true env st).1.depth
        = some (routeClamp D)) := by
  rcases hres : (getBestMove f (routeClamp D) tl env st).res with ⟨m, e⟩ | _ | _ | e | _ | _
  · by_cases hm : m = ""
    · simp [routeGetBestMove, hres, hm]
    · simp [routeGetBestMove, hres, hm]
  · simp [routeGetBestMove, hres]
  · simp [routeGetBestMove, hres]
  · simp [routeGetBestMove, hres]
  · simp [routeGetBestMove, hres]
  · simp [routeGetBestMove, hres]

/-- C10: for an external request with depth `D` in `[26, 30]` and no time
budget, the HTTP layer clamps `D` to `[5, 30]` — leaving it unchanged — and
reports that value in the response's `depth` field on success, while the
engine independently re-clamps it to `[5, 25]` and actually sends
`go depth 25`: the reported depth exceeds the searched depth by up to 5. -/
theorem c10_route_depth_overreport (f : String) (D : ℤ) (env : SpawnEnv)
    (st : St) (h26 : 26 ≤ D) (h30 : D ≤ 30) (halive : isAlive st = true) :
    routeClamp D = D ∧
    clampDepth (routeClamp D) = 25 ∧
    Act.sent "go depth 25" ∈ (routeGetBestMove (some f) D none true env st).2.2 ∧
    ((routeGetBestMove (some f) D none true env st).1.success = true →
      (routeGetBestMove (some f) D none true env st).1.depth = some D) ∧
    routeClamp D - clampDepth (routeClamp D) ≤ 5 := by
  have hrc : routeClamp D = D := by
    unfold routeClamp zmin zmax
    split_ifs <;> omega
  have hcd : clampDepth (routeClamp D) = 25 := by
    rw [hrc]
    unfold clampDepth zmin zmax
    split_ifs <;> omega
  have hgo : (goCommand (routeClamp D) none).1 = "go depth 25" := by
    simp only [goCommand]
    rw [hcd]
    rfl
  rcases routeGetBestMove_normal f D none env st with ⟨htr, hdep⟩
  refine ⟨hrc, hcd, ?_, ?_, by omega⟩
  · rw [htr, getBestMove_alive_eq f (routeClamp D) none env st halive, ← hgo]
    simp
  · intro h
    rw [hdep h, hrc]

/-- State for the C10 witness: the engine answers `bestmove e2e4`. -/
def c10st : St := ⟨[], [QEvent.line ⟨false, "bestmove e2e4"⟩ 500], 0, none⟩

/-- Witness for C10 at requested depth 28. -/
theorem c10_witness :
    routeClamp 28 = 28 ∧
    clampDepth (routeClamp 28) = 25 ∧
    Act.sent "go depth 25" ∈ (routeGetBestMove (some "f") 28 none true ⟨true, none⟩ c10st).2.2 ∧
    ((routeGetBestMove (some "f") 28 none true ⟨true, none⟩ c10st).1.success = true →
      (routeGetBestMove (some "f") 28 none true ⟨true, none⟩ c10st).1.depth = some 28) ∧
    routeClamp 28 - clampDepth (routeClamp 28) ≤ 5 :=
  c10_route_depth_overreport "f" 28 ⟨true, none⟩ c10st (by decide) (by decide) (by decide)

end CloudStock
